import Mathlib

/-!
Shallow embedding of `src/multi_armed_bandit.py` (class `k_bandit_epsilon_greedy`).

Modelling conventions:
* Real-valued quantities (`epsilon`, rewards, action values) are modelled as
  exact rationals `ℚ`: the source claims are stated "in exact real arithmetic",
  and `ℚ` keeps every definition executable and every comparison decidable.
* Python ints are `ℤ` where the source can receive negative values (`k`,
  `iters` at the constructor) and `ℕ` where the source guarantees
  non-negativity (the per-arm selection counters start at 0 and only ever
  grow by 1, so `List ℕ` encodes the non-negative-integer invariant).
* Randomness is an oracle passed in explicitly: each round receives the
  uniform draw `np.random.ranf(1)[0]`, the integer draw `np.random.randint`
  would return on the explore branch, and the function
  `normal : ℚ → ℚ → ℚ` standing for `np.random.normal (loc) (scale)` at
  that call site.
* Python methods mutate `self`; methods are embedded as functions threading
  the `Bandit` state explicitly. A method that can raise is embedded with an
  `Except`/`Option` codomain.
* Out-of-range list reads use `List.getD` (default `0`); the theorems about
  indexing carry the in-range hypotheses under which the source would not
  raise `IndexError`.
-/

/-- State of `k_bandit_epsilon_greedy`: the fields set by `__init__`
(`self.k`, `self.epsilon`, `self.iters`, `self.action_values`,
`self.action_chosen_counter`, `self.total_reward`, `self.reward_means`,
`self.reward_variances`). -/
structure Bandit where
  k : ℕ
  epsilon : ℚ
  iters : ℤ
  action_values : List ℚ
  action_chosen_counter : List ℕ
  total_reward : ℚ
  reward_means : List ℚ
  reward_variances : List ℚ
  deriving Repr, DecidableEq

/-- `__init__(k, epsilon, iters, initial_reward, reward_means, reward_variances)`.

The body performs no validation: it stores `k`, `epsilon`, `iters` as given,
builds `np.repeat(initial_reward, k)`, `np.repeat(0, k)`, sets
`total_reward = 0.0`, and fills `reward_means` / `reward_variances` from the
optional arguments (drawing `np.random.normal(0, 1, k)` resp. `np.repeat(1, k)`
when they are `None`).  The only failure mode is numpy itself: `np.repeat`
(the first statement touching `k`) raises `ValueError` on a negative size, so
`k < 0` is the single error branch; for `k ≥ 0` construction always succeeds.
`rng_means` is the oracle for the `np.random.normal(0, 1, k)` default draw. -/
def mk_bandit (k : ℤ) (epsilon : ℚ) (iters : ℤ) (initial_reward : ℚ)
    (reward_means : Option (List ℚ)) (reward_variances : Option (List ℚ))
    (rng_means : ℕ → ℚ) : Except String Bandit :=
  if k < 0 then
    Except.error "ValueError: negative dimensions are not allowed"
  else
    Except.ok
      { k := k.toNat
        epsilon := epsilon
        iters := iters
        action_values := List.replicate k.toNat initial_reward
        action_chosen_counter := List.replicate k.toNat 0
        total_reward := 0
        reward_means := reward_means.getD ((List.range k.toNat).map rng_means)
        reward_variances := reward_variances.getD (List.replicate k.toNat 1) }

/-- `np.argmax` on a 1-d array: index of the first occurrence of the maximal
entry (numpy's documented tie-breaking).  Total; numpy raises on an empty
array, and the theorems about it assume nonemptiness. -/
def np_argmax : List ℚ → ℕ
  | [] => 0
  | x :: xs =>
    match xs with
    | [] => 0
    | _ :: _ => if xs.getD (np_argmax xs) 0 ≤ x then 0 else np_argmax xs + 1

/-- `choose_action(self)`, state threaded explicitly.  `rand_val` is the
uniform draw `np.random.ranf(1)[0]`; `explore_arm` is the value
`np.random.randint(0, self.k)` would return on the explore branch.  The body
assigns no field of `self`, so the returned state is the input state. -/
def choose_action_m (b : Bandit) (rand_val : ℚ) (explore_arm : ℕ) : ℕ × Bandit :=
  if rand_val ≤ b.epsilon then
    (explore_arm, b)
  else
    (np_argmax b.action_values, b)

/-- `get_reward(self, chosen_action)`: draws
`np.random.normal(reward_means[a], reward_variances[a])` (oracle `normal`),
adds it to `total_reward`, returns it. -/
def get_reward (b : Bandit) (chosen_action : ℕ) (normal : ℚ → ℚ → ℚ) :
    ℚ × Bandit :=
  let reward := normal (b.reward_means.getD chosen_action 0)
    (b.reward_variances.getD chosen_action 0)
  (reward, { b with total_reward := b.total_reward + reward })

/-- `update_action_values(self, chosen_action, reward)`: first increments
`action_chosen_counter[a]`, then
`action_values[a] += 1/action_chosen_counter[a] * (reward - action_values[a])`
with the already-incremented counter as divisor. -/
def update_action_values (b : Bandit) (chosen_action : ℕ) (reward : ℚ) :
    Bandit :=
  let new_count := b.action_chosen_counter.getD chosen_action 0 + 1
  let old_val := b.action_values.getD chosen_action 0
  { b with
    action_chosen_counter := b.action_chosen_counter.set chosen_action new_count
    action_values := b.action_values.set chosen_action
      (old_val + 1 / (new_count : ℚ) * (reward - old_val)) }

/-- `update_action_values` with the division guarded: `none` exactly when the
divisor `action_chosen_counter[a]` (after the increment) would be zero. -/
def update_action_values_checked (b : Bandit) (chosen_action : ℕ)
    (reward : ℚ) : Option Bandit :=
  let new_count := b.action_chosen_counter.getD chosen_action 0 + 1
  let old_val := b.action_values.getD chosen_action 0
  if new_count = 0 then none
  else some
    { b with
      action_chosen_counter := b.action_chosen_counter.set chosen_action new_count
      action_values := b.action_values.set chosen_action
        (old_val + 1 / (new_count : ℚ) * (reward - old_val)) }

/-- The random draws one loop iteration of `run_bandit` consumes. -/
structure RoundRand where
  rand_val : ℚ
  explore_arm : ℕ
  normal : ℚ → ℚ → ℚ

/-- One iteration of the `while` loop body of `run_bandit`:
`chosen_action = self.choose_action()`, `reward = self.get_reward(...)`,
`self.update_action_values(...)`, in that order. -/
def bandit_round (b : Bandit) (r : RoundRand) : Bandit :=
  let ca := choose_action_m b r.rand_val r.explore_arm
  let gr := get_reward ca.2 ca.1 r.normal
  update_action_values gr.2 ca.1 gr.1

/-- `n` successive loop iterations, round `i` using the oracle draws `rnd i`. -/
def run_rounds (rnd : ℕ → RoundRand) : ℕ → ℕ → Bandit → Bandit
  | _, 0, b => b
  | i, n + 1, b => run_rounds rnd (i + 1) n (bandit_round b (rnd i))

/-- `run_bandit(self)`: `iteration_counter` runs from `0` while
`iteration_counter <= self.iters`, i.e. the loop body executes
`(self.iters + 1).toNat` times; the final `self.total_reward` is returned
alongside the final state. -/
def run_bandit (b : Bandit) (rnd : ℕ → RoundRand) : ℚ × Bandit :=
  let bf := run_rounds rnd 0 (b.iters + 1).toNat b
  (bf.total_reward, bf)

/-- Repeated calls of `run_bandit` on the same instance: `rnds m` is the
random stream the `m`-th call consumes. -/
def run_bandit_calls (rnds : ℕ → ℕ → RoundRand) (b : Bandit) : ℕ → Bandit
  | 0 => b
  | m + 1 => (run_bandit (run_bandit_calls rnds b m) (rnds m)).2

/-- A sequence of direct `update_action_values(arm, reward)` calls. -/
def apply_updates (b : Bandit) : List (ℕ × ℚ) → Bandit
  | [] => b
  | (a, r) :: us => apply_updates (update_action_values b a r) us

/-- The arm index a round selects (`chosen_action` in the loop body). -/
def round_choice (b : Bandit) (r : RoundRand) : ℕ :=
  (choose_action_m b r.rand_val r.explore_arm).1

/-- The shape invariants a validly constructed engine satisfies and that
every loop iteration preserves: at least one arm, and the two mutated
per-arm arrays have length `k`. -/
def GoodState (b : Bandit) : Prop :=
  0 < b.k ∧ b.action_values.length = b.k ∧ b.action_chosen_counter.length = b.k

/-- A concrete reachable state used to instantiate theorems: two arms,
`epsilon = 0`, `iters = 1`, current estimates `[0, 1]`. -/
def exB : Bandit :=
  { k := 2, epsilon := 0, iters := 1, action_values := [0, 1],
    action_chosen_counter := [0, 0], total_reward := 0,
    reward_means := [5, -5], reward_variances := [1, 1] }

/-- The state `__init__(2, 0, 1, 0.0, [5, -5], [1, 1])` produces. -/
def exB0 : Bandit :=
  { k := 2, epsilon := 0, iters := 1, action_values := [0, 0],
    action_chosen_counter := [0, 0], total_reward := 0,
    reward_means := [5, -5], reward_variances := [1, 1] }

/-- A concrete random stream: uniform draw `1` (exploit), explore arm `0`,
and a zero-noise normal sampler returning its location parameter. -/
def exRnd : ℕ → RoundRand := fun _ => ⟨1, 0, fun m _ => m⟩

/-- A concrete per-call family of random streams. -/
def exRnds : ℕ → ℕ → RoundRand := fun _ => exRnd

/-! ### Helper lemmas -/

lemma getD_set_self {α : Type} (l : List α) (i : ℕ) (v d : α)
    (h : i < l.length) : (l.set i v).getD i d = v := by
  rw [List.getD_eq_getElem?_getD, List.getElem?_set_self h]
  rfl

lemma getD_set_ne {α : Type} (l : List α) {i j : ℕ} (h : i ≠ j) (v d : α) :
    (l.set i v).getD j d = l.getD j d := by
  rw [List.getD_eq_getElem?_getD, List.getElem?_set_ne h,
    ← List.getD_eq_getElem?_getD]

lemma sum_set_incr (l : List ℕ) :
    ∀ i, i < l.length → (l.set i (l.getD i 0 + 1)).sum = l.sum + 1 := by
  induction l with
  | nil => intro i h; simp at h
  | cons x xs ih =>
    intro i h
    cases i with
    | zero =>
      rw [List.getD_cons_zero, List.set_cons_zero, List.sum_cons, List.sum_cons]
      omega
    | succ n =>
      have hn : n < xs.length := by simpa using h
      rw [List.getD_cons_succ, List.set_cons_succ, List.sum_cons, List.sum_cons,
        ih n hn]
      omega

lemma choose_action_m_state (b : Bandit) (u : ℚ) (e : ℕ) :
    (choose_action_m b u e).2 = b := by
  unfold choose_action_m; split <;> rfl

lemma bandit_round_eq (b : Bandit) (r : RoundRand) :
    bandit_round b r =
      update_action_values
        (get_reward b (round_choice b r) r.normal).2
        (round_choice b r)
        (get_reward b (round_choice b r) r.normal).1 := by
  simp only [bandit_round, round_choice, choose_action_m_state]

lemma bandit_round_frame (b : Bandit) (r : RoundRand) :
    (bandit_round b r).k = b.k ∧
    (bandit_round b r).epsilon = b.epsilon ∧
    (bandit_round b r).iters = b.iters ∧
    (bandit_round b r).reward_means = b.reward_means ∧
    (bandit_round b r).reward_variances = b.reward_variances ∧
    (bandit_round b r).action_values.length = b.action_values.length ∧
    (bandit_round b r).action_chosen_counter.length
      = b.action_chosen_counter.length := by
  rw [bandit_round_eq]
  unfold get_reward update_action_values
  simp

lemma bandit_round_counter (b : Bandit) (r : RoundRand) :
    (bandit_round b r).action_chosen_counter
      = b.action_chosen_counter.set (round_choice b r)
          (b.action_chosen_counter.getD (round_choice b r) 0 + 1) := by
  rw [bandit_round_eq]
  unfold get_reward update_action_values
  simp

lemma np_argmax_singleton (x : ℚ) : np_argmax [x] = 0 := rfl

lemma np_argmax_cons_cons (x y : ℚ) (t : List ℚ) :
    np_argmax (x :: y :: t) =
      if (y :: t).getD (np_argmax (y :: t)) 0 ≤ x then 0
      else np_argmax (y :: t) + 1 := rfl

lemma np_argmax_spec :
    ∀ l : List ℚ, l ≠ [] →
      np_argmax l < l.length ∧
      (∀ j, j < l.length → l.getD j 0 ≤ l.getD (np_argmax l) 0) ∧
      (∀ j, j < np_argmax l → l.getD j 0 < l.getD (np_argmax l) 0) := by
  intro l
  induction l with
  | nil => intro h; exact absurd rfl h
  | cons x xs ih =>
    intro _
    cases xs with
    | nil =>
      refine ⟨by simp [np_argmax_singleton], ?_, by simp [np_argmax_singleton]⟩
      intro j hj
      have hj0 : j = 0 := Nat.lt_one_iff.mp (by simpa using hj)
      subst hj0
      simp [np_argmax_singleton]
    | cons y t =>
      obtain ⟨ihlt, ihmax, ihfirst⟩ := ih (by simp)
      rw [np_argmax_cons_cons]
      by_cases hc : (y :: t).getD (np_argmax (y :: t)) 0 ≤ x
      · rw [if_pos hc]
        refine ⟨by simp, ?_, by simp⟩
        intro j hj
        cases j with
        | zero => simp
        | succ m =>
          simp only [List.getD_cons_succ, List.getD_cons_zero]
          exact le_trans (ihmax m (by simpa using hj)) hc
      · rw [if_neg hc]
        push_neg at hc
        refine ⟨by simpa using ihlt, ?_, ?_⟩
        · intro j hj
          cases j with
          | zero => simpa using le_of_lt hc
          | succ m =>
            simp only [List.getD_cons_succ]
            exact ihmax m (by simpa using hj)
        · intro j hj
          cases j with
          | zero => simpa using hc
          | succ m =>
            simp only [List.getD_cons_succ]
            exact ihfirst m (by simpa using hj)

lemma round_choice_lt (b : Bandit) (r : RoundRand) (hk : 0 < b.k)
    (hval : b.action_values.length = b.k) (he : r.explore_arm < b.k) :
    round_choice b r < b.k := by
  unfold round_choice choose_action_m
  split
  · simpa using he
  · have hne : b.action_values ≠ [] := by
      intro hnil
      rw [hnil] at hval
      simp at hval
      omega
    have := (np_argmax_spec b.action_values hne).1
    simpa [hval] using this

lemma bandit_round_good (b : Bandit) (r : RoundRand) (hg : GoodState b) :
    GoodState (bandit_round b r) := by
  obtain ⟨hf1, hf2, hf3, hf4, hf5, hf6, hf7⟩ := bandit_round_frame b r
  exact ⟨by rw [hf1]; exact hg.1, by rw [hf1, hf6]; exact hg.2.1,
    by rw [hf1, hf7]; exact hg.2.2⟩

lemma bandit_round_sum (b : Bandit) (r : RoundRand) (hg : GoodState b)
    (he : r.explore_arm < b.k) :
    (bandit_round b r).action_chosen_counter.sum
      = b.action_chosen_counter.sum + 1 := by
  rw [bandit_round_counter]
  exact sum_set_incr _ _
    (by rw [hg.2.2]; exact round_choice_lt b r hg.1 hg.2.1 he)

lemma run_rounds_succ (rnd : ℕ → RoundRand) (i n : ℕ) (b : Bandit) :
    run_rounds rnd i (n + 1) b = run_rounds rnd (i + 1) n (bandit_round b (rnd i)) :=
  rfl

lemma run_rounds_frame (rnd : ℕ → RoundRand) :
    ∀ (n i : ℕ) (b : Bandit),
      (run_rounds rnd i n b).k = b.k ∧
      (run_rounds rnd i n b).epsilon = b.epsilon ∧
      (run_rounds rnd i n b).iters = b.iters ∧
      (run_rounds rnd i n b).reward_means = b.reward_means ∧
      (run_rounds rnd i n b).reward_variances = b.reward_variances := by
  intro n
  induction n with
  | zero => intro i b; exact ⟨rfl, rfl, rfl, rfl, rfl⟩
  | succ n ih =>
    intro i b
    obtain ⟨hf1, hf2, hf3, hf4, hf5, _, _⟩ := bandit_round_frame b (rnd i)
    obtain ⟨g1, g2, g3, g4, g5⟩ := ih (i + 1) (bandit_round b (rnd i))
    rw [run_rounds_succ]
    exact ⟨g1.trans hf1, g2.trans hf2, g3.trans hf3, g4.trans hf4, g5.trans hf5⟩

lemma run_rounds_invariant (rnd : ℕ → RoundRand) :
    ∀ (n i : ℕ) (b : Bandit), GoodState b →
      (∀ j, (rnd j).explore_arm < b.k) →
      GoodState (run_rounds rnd i n b) ∧
      (run_rounds rnd i n b).action_chosen_counter.sum
        = b.action_chosen_counter.sum + n := by
  intro n
  induction n with
  | zero => intro i b hg _; exact ⟨hg, rfl⟩
  | succ n ih =>
    intro i b hg he
    have hg' : GoodState (bandit_round b (rnd i)) := bandit_round_good b (rnd i) hg
    have hk' : (bandit_round b (rnd i)).k = b.k := (bandit_round_frame b (rnd i)).1
    have he' : ∀ j, (rnd j).explore_arm < (bandit_round b (rnd i)).k := by
      rw [hk']; exact he
    obtain ⟨g, s⟩ := ih (i + 1) (bandit_round b (rnd i)) hg' he'
    refine ⟨by rw [run_rounds_succ]; exact g, ?_⟩
    rw [run_rounds_succ, s, bandit_round_sum b (rnd i) hg (he i)]
    omega

lemma getD_replicate {α : Type} (n i : ℕ) (x d : α) (h : i < n) :
    (List.replicate n x).getD i d = x := by
  simp [List.getD_eq_getElem?_getD, List.getElem?_replicate, h]

lemma update_lengths (b : Bandit) (a : ℕ) (r : ℚ) :
    (update_action_values b a r).action_values.length = b.action_values.length ∧
    (update_action_values b a r).action_chosen_counter.length
      = b.action_chosen_counter.length := by
  unfold update_action_values
  simp

lemma update_counter_getD_self (b : Bandit) (a : ℕ) (r : ℚ)
    (ha : a < b.action_chosen_counter.length) :
    (update_action_values b a r).action_chosen_counter.getD a 0
      = b.action_chosen_counter.getD a 0 + 1 := by
  unfold update_action_values
  exact getD_set_self _ _ _ _ ha

lemma update_counter_getD_ne (b : Bandit) {a' a : ℕ} (h : a' ≠ a) (r : ℚ) :
    (update_action_values b a' r).action_chosen_counter.getD a 0
      = b.action_chosen_counter.getD a 0 := by
  unfold update_action_values
  exact getD_set_ne _ h _ _

lemma update_values_getD_self (b : Bandit) (a : ℕ) (r : ℚ)
    (ha : a < b.action_values.length) :
    (update_action_values b a r).action_values.getD a 0
      = b.action_values.getD a 0
        + 1 / ((b.action_chosen_counter.getD a 0 : ℚ) + 1)
          * (r - b.action_values.getD a 0) := by
  unfold update_action_values
  rw [getD_set_self _ _ _ _ ha]
  push_cast
  ring

lemma update_values_getD_ne (b : Bandit) {a' a : ℕ} (h : a' ≠ a) (r : ℚ) :
    (update_action_values b a' r).action_values.getD a 0
      = b.action_values.getD a 0 := by
  unfold update_action_values
  exact getD_set_ne _ h _ _

lemma apply_updates_mean_aux :
    ∀ (us : List (ℕ × ℚ)) (b : Bandit) (a : ℕ),
      a < b.action_chosen_counter.length → a < b.action_values.length →
      ((apply_updates b us).action_chosen_counter.getD a 0
          = b.action_chosen_counter.getD a 0
            + (us.filter (fun p => p.1 == a)).length) ∧
      ((apply_updates b us).action_values.getD a 0)
          * ((b.action_chosen_counter.getD a 0 : ℚ)
              + ((us.filter (fun p => p.1 == a)).length : ℚ))
        = b.action_values.getD a 0 * (b.action_chosen_counter.getD a 0 : ℚ)
          + ((us.filter (fun p => p.1 == a)).map Prod.snd).sum := by
  intro us
  induction us with
  | nil =>
    intro b a _ _
    refine ⟨by simp [apply_updates], by simp [apply_updates]⟩
  | cons p us ih =>
    obtain ⟨a', r⟩ := p
    intro b a h1 h2
    have hlen := update_lengths b a' r
    have h1' : a < (update_action_values b a' r).action_chosen_counter.length := by
      rw [hlen.2]; exact h1
    have h2' : a < (update_action_values b a' r).action_values.length := by
      rw [hlen.1]; exact h2
    obtain ⟨ihc, ihv⟩ := ih (update_action_values b a' r) a h1' h2'
    by_cases hcase : a' = a
    · subst hcase
      have hfilter :
          List.filter (fun p => p.1 == a') ((a', r) :: us)
            = (a', r) :: List.filter (fun p => p.1 == a') us := by
        simp [List.filter_cons]
      set c : ℕ := b.action_chosen_counter.getD a' 0 with hc
      set v : ℚ := b.action_values.getD a' 0 with hv
      have hcpos : ((c : ℚ) + 1) ≠ 0 := by positivity
      constructor
      · show (apply_updates (update_action_values b a' r) us).action_chosen_counter.getD a' 0
            = c + (List.filter (fun p => p.1 == a') ((a', r) :: us)).length
        rw [ihc, update_counter_getD_self b a' r h1, hfilter, List.length_cons]
        omega
      · show (apply_updates (update_action_values b a' r) us).action_values.getD a' 0
            * ((c : ℚ) + ((List.filter (fun p => p.1 == a') ((a', r) :: us)).length : ℚ))
          = v * (c : ℚ)
            + ((List.filter (fun p => p.1 == a') ((a', r) :: us)).map Prod.snd).sum
        rw [hfilter]
        have hvv := ihv
        rw [update_counter_getD_self b a' r h1,
          update_values_getD_self b a' r h2] at hvv
        rw [← hc, ← hv] at hvv
        have hstep :
            (v + 1 / ((c : ℚ) + 1) * (r - v)) * ((c : ℚ) + 1)
              = v * (c : ℚ) + r := by
          field_simp
          ring
        simp only [List.length_cons, List.map_cons, List.sum_cons]
        push_cast
        push_cast at hvv
        calc (apply_updates (update_action_values b a' r) us).action_values.getD a' 0
              * ((c : ℚ) + ((List.filter (fun p => p.1 == a') us).length + 1))
            = (apply_updates (update_action_values b a' r) us).action_values.getD a' 0
              * (((c : ℚ) + 1) + (List.filter (fun p => p.1 == a') us).length) := by
              ring
          _ = (v + 1 / ((c : ℚ) + 1) * (r - v)) * ((c : ℚ) + 1)
              + ((List.filter (fun p => p.1 == a') us).map Prod.snd).sum := hvv
          _ = v * (c : ℚ) + r
              + ((List.filter (fun p => p.1 == a') us).map Prod.snd).sum := by
              rw [hstep]
          _ = v * (c : ℚ)
              + (r + ((List.filter (fun p => p.1 == a') us).map Prod.snd).sum) := by
              ring
    · have hfilter :
          List.filter (fun p => p.1 == a) ((a', r) :: us)
            = List.filter (fun p => p.1 == a) us := by
        simp [List.filter_cons, hcase]
      constructor
      · show (apply_updates (update_action_values b a' r) us).action_chosen_counter.getD a 0
            = b.action_chosen_counter.getD a 0
              + (List.filter (fun p => p.1 == a) ((a', r) :: us)).length
        rw [ihc, update_counter_getD_ne b hcase r, hfilter]
      · show (apply_updates (update_action_values b a' r) us).action_values.getD a 0
            * ((b.action_chosen_counter.getD a 0 : ℚ)
                + ((List.filter (fun p => p.1 == a) ((a', r) :: us)).length : ℚ))
          = b.action_values.getD a 0 * (b.action_chosen_counter.getD a 0 : ℚ)
            + ((List.filter (fun p => p.1 == a) ((a', r) :: us)).map Prod.snd).sum
        rw [hfilter]
        rw [update_counter_getD_ne b hcase r, update_values_getD_ne b hcase r] at ihv
        exact ihv

lemma mk_bandit_ok (k : ℤ) (hk : 0 ≤ k) (eps : ℚ) (iters : ℤ) (init : ℚ)
    (ms vs : Option (List ℚ)) (rng : ℕ → ℚ) :
    mk_bandit k eps iters init ms vs rng = Except.ok
      { k := k.toNat, epsilon := eps, iters := iters,
        action_values := List.replicate k.toNat init,
        action_chosen_counter := List.replicate k.toNat 0,
        total_reward := 0,
        reward_means := ms.getD ((List.range k.toNat).map rng),
        reward_variances := vs.getD (List.replicate k.toNat 1) } := by
  unfold mk_bandit
  rw [if_neg (not_lt.mpr hk)]

lemma mk_bandit_elim (k : ℤ) (eps : ℚ) (iters : ℤ) (init : ℚ)
    (ms vs : Option (List ℚ)) (rng : ℕ → ℚ) (b₀ : Bandit)
    (hmk : mk_bandit k eps iters init ms vs rng = Except.ok b₀) :
    0 ≤ k ∧ b₀ =
      { k := k.toNat, epsilon := eps, iters := iters,
        action_values := List.replicate k.toNat init,
        action_chosen_counter := List.replicate k.toNat 0,
        total_reward := 0,
        reward_means := ms.getD ((List.range k.toNat).map rng),
        reward_variances := vs.getD (List.replicate k.toNat 1) } := by
  unfold mk_bandit at hmk
  by_cases hk : k < 0
  · rw [if_pos hk] at hmk
    exact absurd hmk (by simp)
  · rw [if_neg hk] at hmk
    refine ⟨not_lt.mp hk, ?_⟩
    injection hmk with h
    exact h.symm

lemma exploit_first_argmax (b : Bandit) (u : ℚ) (e : ℕ)
    (hu : ¬ u ≤ b.epsilon) (hk : 0 < b.k)
    (hlen : b.action_values.length = b.k) :
    (choose_action_m b u e).1 < b.k ∧
    (∀ j, j < b.k → b.action_values.getD j 0
        ≤ b.action_values.getD (choose_action_m b u e).1 0) ∧
    (∀ j, j < (choose_action_m b u e).1 →
        b.action_values.getD j 0
          < b.action_values.getD (choose_action_m b u e).1 0) := by
  have hne : b.action_values ≠ [] := by
    intro hnil
    rw [hnil] at hlen
    simp at hlen
    omega
  have hch : (choose_action_m b u e).1 = np_argmax b.action_values := by
    unfold choose_action_m
    rw [if_neg hu]
  obtain ⟨h1, h2, h3⟩ := np_argmax_spec b.action_values hne
  rw [hch]
  exact ⟨by rw [← hlen]; exact h1,
    fun j hj => h2 j (by rw [hlen]; exact hj), h3⟩

lemma run_bandit_calls_invariant (rnds : ℕ → ℕ → RoundRand) (b : Bandit)
    (hg : GoodState b) (hexp : ∀ m i, (rnds m i).explore_arm < b.k) :
    ∀ m, (run_bandit_calls rnds b m).k = b.k ∧
      (run_bandit_calls rnds b m).iters = b.iters ∧
      GoodState (run_bandit_calls rnds b m) ∧
      (run_bandit_calls rnds b m).action_chosen_counter.sum
        = b.action_chosen_counter.sum + m * (b.iters + 1).toNat := by
  intro m
  induction m with
  | zero => exact ⟨rfl, rfl, hg, by simp [run_bandit_calls]⟩
  | succ m ih =>
    obtain ⟨hk, hi, hgm, hs⟩ := ih
    have e1 : run_bandit_calls rnds b (m + 1)
        = run_rounds (rnds m) 0
            (((run_bandit_calls rnds b m).iters + 1).toNat)
            (run_bandit_calls rnds b m) := rfl
    have he' : ∀ j, (rnds m j).explore_arm < (run_bandit_calls rnds b m).k := by
      rw [hk]
      exact hexp m
    obtain ⟨g, s⟩ := run_rounds_invariant (rnds m)
      (((run_bandit_calls rnds b m).iters + 1).toNat) 0
      (run_bandit_calls rnds b m) hgm he'
    obtain ⟨f1, _, f3, _, _⟩ := run_rounds_frame (rnds m)
      (((run_bandit_calls rnds b m).iters + 1).toNat) 0
      (run_bandit_calls rnds b m)
    refine ⟨?_, ?_, ?_, ?_⟩
    · rw [e1, f1, hk]
    · rw [e1, f3, hi]
    · rw [e1]; exact g
    · rw [e1, s, hs, hi]
      ring

/-! ### Claim theorems -/

/-- C10: in `update_action_values` the counter increment happens strictly
before the division, so the divisor `action_chosen_counter[arm]` read at the
division is the already-incremented value `old + 1 ≥ 1` for every state and
arm; the guarded-division embedding therefore never takes its error branch
and agrees with the unguarded one. -/
theorem claim10_division_never_by_zero (b : Bandit) (a : ℕ) (r : ℚ) :
    1 ≤ b.action_chosen_counter.getD a 0 + 1 ∧
    update_action_values_checked b a r = some (update_action_values b a r) := by
  refine ⟨Nat.le_add_left 1 _, ?_⟩
  unfold update_action_values_checked update_action_values
  simp

/-- C7: for a valid arm index, `get_reward` returns exactly the value the
normal-sampling oracle produces at location `reward_means[a]` and scale
`reward_variances[a]`, its only state change is adding that value to
`total_reward`, and every other field is unchanged. -/
theorem claim7_get_reward_frame (b : Bandit) (a : ℕ) (normal : ℚ → ℚ → ℚ)
    (_ha : a < b.k) :
    (get_reward b a normal).1
        = normal (b.reward_means.getD a 0) (b.reward_variances.getD a 0) ∧
    (get_reward b a normal).2.total_reward
        = b.total_reward + (get_reward b a normal).1 ∧
    (get_reward b a normal).2.action_values = b.action_values ∧
    (get_reward b a normal).2.action_chosen_counter = b.action_chosen_counter ∧
    (get_reward b a normal).2.reward_means = b.reward_means ∧
    (get_reward b a normal).2.reward_variances = b.reward_variances ∧
    (get_reward b a normal).2.k = b.k ∧
    (get_reward b a normal).2.epsilon = b.epsilon ∧
    (get_reward b a normal).2.iters = b.iters :=
  ⟨rfl, rfl, rfl, rfl, rfl, rfl, rfl, rfl, rfl⟩

/-- Witness for C7 at the concrete state `exB`, arm 0, zero-noise sampler. -/
theorem claim7_witness :
    0 < exB.k ∧
    ((get_reward exB 0 (fun m _ => m)).1
        = (fun (m : ℚ) (_ : ℚ) => m) (exB.reward_means.getD 0 0)
            (exB.reward_variances.getD 0 0) ∧
      (get_reward exB 0 (fun m _ => m)).2.total_reward
        = exB.total_reward + (get_reward exB 0 (fun m _ => m)).1 ∧
      (get_reward exB 0 (fun m _ => m)).2.action_values = exB.action_values ∧
      (get_reward exB 0 (fun m _ => m)).2.action_chosen_counter
        = exB.action_chosen_counter ∧
      (get_reward exB 0 (fun m _ => m)).2.reward_means = exB.reward_means ∧
      (get_reward exB 0 (fun m _ => m)).2.reward_variances
        = exB.reward_variances ∧
      (get_reward exB 0 (fun m _ => m)).2.k = exB.k ∧
      (get_reward exB 0 (fun m _ => m)).2.epsilon = exB.epsilon ∧
      (get_reward exB 0 (fun m _ => m)).2.iters = exB.iters) :=
  ⟨by decide, claim7_get_reward_frame exB 0 (fun m _ => m) (by decide)⟩

/-- C9: `choose_action` mutates no engine state (the threaded state it
returns is exactly its input, for both of two arbitrary states), and its
result is a function of the state only through `epsilon` and
`action_values` together with the fresh random draws. -/
theorem claim9_choose_action_pure (b b' : Bandit) (u : ℚ) (e : ℕ)
    (heps : b.epsilon = b'.epsilon)
    (hvals : b.action_values = b'.action_values) :
    (choose_action_m b u e).2 = b ∧
    (choose_action_m b' u e).2 = b' ∧
    (choose_action_m b u e).1 = (choose_action_m b' u e).1 := by
  refine ⟨choose_action_m_state b u e, choose_action_m_state b' u e, ?_⟩
  unfold choose_action_m
  rw [heps, hvals]
  split <;> rfl

/-- Witness for C9: `exB` and `exB` with a different `total_reward` and
`iters` agree on `epsilon` and `action_values`, so `choose_action` leaves
both untouched and returns the same arm. -/
theorem claim9_witness :
    exB.epsilon = ({ exB with total_reward := 42, iters := 7 } : Bandit).epsilon ∧
    exB.action_values
      = ({ exB with total_reward := 42, iters := 7 } : Bandit).action_values ∧
    ((choose_action_m exB 1 0).2 = exB ∧
      (choose_action_m { exB with total_reward := 42, iters := 7 } 1 0).2
        = { exB with total_reward := 42, iters := 7 } ∧
      (choose_action_m exB 1 0).1
        = (choose_action_m { exB with total_reward := 42, iters := 7 } 1 0).1) :=
  ⟨rfl, rfl, claim9_choose_action_pure exB { exB with total_reward := 42, iters := 7 }
    1 0 rfl rfl⟩

/-- C6: whenever the uniform draw exceeds `epsilon` (exploit branch),
`choose_action` returns an in-range index whose `action_values` entry is
greater than or equal to every entry, and every strictly earlier index
holds a strictly smaller entry — i.e. the smallest index attaining the
maximum (first-occurrence argmax). -/
theorem claim6_exploit_first_occurrence_argmax (b : Bandit) (u : ℚ) (e : ℕ)
    (hu : ¬ u ≤ b.epsilon) (hk : 0 < b.k)
    (hlen : b.action_values.length = b.k) :
    (choose_action_m b u e).1 < b.k ∧
    (∀ j, j < b.k → b.action_values.getD j 0
        ≤ b.action_values.getD (choose_action_m b u e).1 0) ∧
    (∀ j, j < (choose_action_m b u e).1 →
        b.action_values.getD j 0
          < b.action_values.getD (choose_action_m b u e).1 0) :=
  exploit_first_argmax b u e hu hk hlen

/-- Witness for C6 at `exB` (values `[0, 1]`, draw `1 > epsilon = 0`). -/
theorem claim6_witness :
    ¬ (1 : ℚ) ≤ exB.epsilon ∧ 0 < exB.k ∧ exB.action_values.length = exB.k ∧
    ((choose_action_m exB 1 0).1 < exB.k ∧
      (∀ j, j < exB.k → exB.action_values.getD j 0
          ≤ exB.action_values.getD (choose_action_m exB 1 0).1 0) ∧
      (∀ j, j < (choose_action_m exB 1 0).1 →
          exB.action_values.getD j 0
            < exB.action_values.getD (choose_action_m exB 1 0).1 0)) :=
  ⟨by decide, by decide, by decide,
    claim6_exploit_first_occurrence_argmax exB 1 0 (by decide) (by decide) (by decide)⟩

/-- C4 counterexample: the source tests `rand_val <= self.epsilon`, so with
`epsilon = 0` the uniform draw `0` (a possible value of a draw from `[0,1)`)
*does* take the explore branch: at state `exB` it returns the explore arm 0
although the unique argmax of `action_values = [0, 1]` is arm 1. -/
theorem claim4_counterexample :
    (choose_action_m exB 0 0).1 = 0 ∧ np_argmax exB.action_values = 1 := by
  decide

/-- C4 (amended): with `epsilon = 0` the exploit branch is taken for every
uniform draw strictly greater than 0, and then `choose_action` returns the
first-occurrence argmax of `action_values`; at draw exactly 0 the explore
branch is taken instead and the explore draw is returned as-is. -/
theorem claim4_amended_epsilon_zero (b : Bandit) (u : ℚ) (e : ℕ)
    (heps : b.epsilon = 0) (hu : 0 < u) (hk : 0 < b.k)
    (hlen : b.action_values.length = b.k) :
    ((choose_action_m b u e).1 < b.k ∧
      (∀ j, j < b.k → b.action_values.getD j 0
          ≤ b.action_values.getD (choose_action_m b u e).1 0) ∧
      (∀ j, j < (choose_action_m b u e).1 →
          b.action_values.getD j 0
            < b.action_values.getD (choose_action_m b u e).1 0)) ∧
    (∀ e' : ℕ, (choose_action_m b 0 e').1 = e') := by
  have hu' : ¬ u ≤ b.epsilon := by
    rw [heps]
    exact not_le.mpr hu
  refine ⟨exploit_first_argmax b u e hu' hk hlen, ?_⟩
  intro e'
  unfold choose_action_m
  rw [if_pos (by rw [heps])]

/-- Witness for the amended C4 at `exB`, draw `1/2 > 0`. -/
theorem claim4_witness :
    exB.epsilon = 0 ∧ (0 : ℚ) < 1/2 ∧ 0 < exB.k ∧
    exB.action_values.length = exB.k ∧
    (((choose_action_m exB (1/2) 0).1 < exB.k ∧
      (∀ j, j < exB.k → exB.action_values.getD j 0
          ≤ exB.action_values.getD (choose_action_m exB (1/2) 0).1 0) ∧
      (∀ j, j < (choose_action_m exB (1/2) 0).1 →
          exB.action_values.getD j 0
            < exB.action_values.getD (choose_action_m exB (1/2) 0).1 0)) ∧
    (∀ e' : ℕ, (choose_action_m exB 0 e').1 = e')) :=
  ⟨rfl, by norm_num, by decide, by decide,
    claim4_amended_epsilon_zero exB (1/2) 0 rfl (by norm_num) (by decide) (by decide)⟩

/-- C5 counterexample: `__init__` contains no validation and no
`InvalidConfiguration`.  With `armCount = 0 ≤ 0`, `iterationCount = 0 ≤ 0`,
and both optional arrays of length different from `armCount` (3 and 1
versus 0), construction still succeeds and returns a usable engine with the
inputs stored as-is. -/
theorem claim5_counterexample :
    mk_bandit 0 0 0 0 (some [1, 2, 3]) (some [1]) (fun _ => 0)
      = Except.ok
        { k := 0, epsilon := 0, iters := 0, action_values := [],
          action_chosen_counter := [], total_reward := 0,
          reward_means := [1, 2, 3], reward_variances := [1] } := by
  rfl

/-- C5 (amended): construction performs no validation at all.  For every
`armCount ≥ 0` (numpy itself rejects only a negative array size) it
succeeds — whatever `iterationCount`, and whatever the lengths of the
optional arrays, which are stored unchecked — and never raises an
`InvalidConfiguration` error. -/
theorem claim5_amended_no_validation (k : ℤ) (hk : 0 ≤ k) (eps : ℚ)
    (iters : ℤ) (init : ℚ) (ms vs : Option (List ℚ)) (rng : ℕ → ℚ) :
    mk_bandit k eps iters init ms vs rng = Except.ok
      { k := k.toNat, epsilon := eps, iters := iters,
        action_values := List.replicate k.toNat init,
        action_chosen_counter := List.replicate k.toNat 0,
        total_reward := 0,
        reward_means := ms.getD ((List.range k.toNat).map rng),
        reward_variances := vs.getD (List.replicate k.toNat 1) } :=
  mk_bandit_ok k hk eps iters init ms vs rng

/-- Witness for the amended C5: `armCount = 2` with `iterationCount = -3`
and a length-1 means array is accepted unchanged. -/
theorem claim5_witness :
    (0 : ℤ) ≤ 2 ∧
    mk_bandit 2 0 (-3) 5 (some [1]) none (fun _ => 0) = Except.ok
      { k := (2 : ℤ).toNat, epsilon := 0, iters := -3,
        action_values := List.replicate (2 : ℤ).toNat 5,
        action_chosen_counter := List.replicate (2 : ℤ).toNat 0,
        total_reward := 0,
        reward_means := (some [1] : Option (List ℚ)).getD
          ((List.range (2 : ℤ).toNat).map (fun _ => 0)),
        reward_variances := (none : Option (List ℚ)).getD
          (List.replicate (2 : ℤ).toNat 1) } :=
  ⟨by decide, claim5_amended_no_validation 2 (by decide) 0 (-3) 5 (some [1])
    none (fun _ => 0)⟩

/-- C1: with `iterationCount = N > 0`, one `run_bandit` call executes
exactly `N + 1` loop iterations (the off-by-one: `iteration_counter` runs
from 0 while `<= iters`); each iteration is one `choose_action`, one
`get_reward` on the chosen arm, one `update_action_values` on that arm, in
that order; the returned value is `total_reward` of the state after the
last iteration; and consequently the selection counters gain exactly
`N + 1` across the call. -/
theorem claim1_runs_iters_plus_one_rounds (b : Bandit) (rnd : ℕ → RoundRand)
    (N : ℤ) (hiter : b.iters = N) (hN : 0 < N) (hg : GoodState b)
    (hexp : ∀ i, (rnd i).explore_arm < b.k) :
    (run_bandit b rnd).2 = run_rounds rnd 0 (N.toNat + 1) b ∧
    (run_bandit b rnd).1 = (run_rounds rnd 0 (N.toNat + 1) b).total_reward ∧
    (∀ (c : Bandit) (r : RoundRand), bandit_round c r
        = update_action_values (get_reward c (round_choice c r) r.normal).2
            (round_choice c r) (get_reward c (round_choice c r) r.normal).1) ∧
    (run_bandit b rnd).2.action_chosen_counter.sum
      = b.action_chosen_counter.sum + (N.toNat + 1) := by
  have hn : (b.iters + 1).toNat = N.toNat + 1 := by
    rw [hiter]
    omega
  have h2 : (run_bandit b rnd).2 = run_rounds rnd 0 (N.toNat + 1) b := by
    show run_rounds rnd 0 (b.iters + 1).toNat b = run_rounds rnd 0 (N.toNat + 1) b
    rw [hn]
  refine ⟨h2, ?_, fun c r => bandit_round_eq c r, ?_⟩
  · show (run_rounds rnd 0 (b.iters + 1).toNat b).total_reward = _
    rw [hn]
  · rw [h2]
    exact (run_rounds_invariant rnd (N.toNat + 1) 0 b hg hexp).2

/-- Witness for C1 at `exB` (`iters = 1`), exploit-only random stream. -/
theorem claim1_witness :
    exB.iters = 1 ∧ (0 : ℤ) < 1 ∧ GoodState exB ∧
    (∀ i, (exRnd i).explore_arm < exB.k) ∧
    ((run_bandit exB exRnd).2 = run_rounds exRnd 0 ((1 : ℤ).toNat + 1) exB ∧
      (run_bandit exB exRnd).1
        = (run_rounds exRnd 0 ((1 : ℤ).toNat + 1) exB).total_reward ∧
      (∀ (c : Bandit) (r : RoundRand), bandit_round c r
          = update_action_values (get_reward c (round_choice c r) r.normal).2
              (round_choice c r) (get_reward c (round_choice c r) r.normal).1) ∧
      (run_bandit exB exRnd).2.action_chosen_counter.sum
        = exB.action_chosen_counter.sum + ((1 : ℤ).toNat + 1)) :=
  ⟨rfl, by decide, ⟨by decide, rfl, rfl⟩, fun i => by show (0 : ℕ) < 2; decide,
    claim1_runs_iters_plus_one_rounds exB exRnd 1 rfl (by decide)
      ⟨by decide, rfl, rfl⟩ (fun i => by show (0 : ℕ) < 2; decide)⟩

/-- C3: for an engine validly constructed (`armCount > 0`, supplied optional
arrays of matching length), all four per-arm arrays have length `armCount`
at construction and after any number `n` of executed rounds; the counters
(naturals, hence non-negative) sum to 0 at construction and to `n` after
`n` rounds; and each round increments exactly the chosen arm's counter by
1, leaving every other counter unchanged. -/
theorem claim3_lengths_counters_invariant
    (k : ℤ) (eps : ℚ) (iters : ℤ) (init : ℚ)
    (ms vs : Option (List ℚ)) (rng : ℕ → ℚ) (b₀ : Bandit)
    (hmk : mk_bandit k eps iters init ms vs rng = Except.ok b₀)
    (hk : 0 < k)
    (hms : ∀ l, ms = some l → l.length = k.toNat)
    (hvs : ∀ l, vs = some l → l.length = k.toNat)
    (rnd : ℕ → RoundRand) (hexp : ∀ i, (rnd i).explore_arm < k.toNat)
    (n : ℕ) :
    (b₀.reward_means.length = b₀.k ∧ b₀.reward_variances.length = b₀.k ∧
      b₀.action_values.length = b₀.k ∧
      b₀.action_chosen_counter.length = b₀.k ∧
      b₀.action_chosen_counter.sum = 0) ∧
    ((run_rounds rnd 0 n b₀).reward_means.length = b₀.k ∧
      (run_rounds rnd 0 n b₀).reward_variances.length = b₀.k ∧
      (run_rounds rnd 0 n b₀).action_values.length = b₀.k ∧
      (run_rounds rnd 0 n b₀).action_chosen_counter.length = b₀.k ∧
      (run_rounds rnd 0 n b₀).action_chosen_counter.sum = n) ∧
    (∀ (c : Bandit) (r : RoundRand), (bandit_round c r).action_chosen_counter
        = c.action_chosen_counter.set (round_choice c r)
            (c.action_chosen_counter.getD (round_choice c r) 0 + 1)) := by
  obtain ⟨hk0, hb⟩ := mk_bandit_elim k eps iters init ms vs rng b₀ hmk
  have hmeans : b₀.reward_means.length = k.toNat := by
    rw [hb]
    cases ms with
    | none => simp
    | some l => simpa using hms l rfl
  have hvars : b₀.reward_variances.length = k.toNat := by
    rw [hb]
    cases vs with
    | none => simp
    | some l => simpa using hvs l rfl
  have hkk : b₀.k = k.toNat := by rw [hb]
  have hvl : b₀.action_values.length = k.toNat := by rw [hb]; simp
  have hcl : b₀.action_chosen_counter.length = k.toNat := by rw [hb]; simp
  have hsum0 : b₀.action_chosen_counter.sum = 0 := by rw [hb]; simp
  have hg : GoodState b₀ :=
    ⟨by rw [hkk]; omega, by rw [hvl, hkk], by rw [hcl, hkk]⟩
  have hexp' : ∀ i, (rnd i).explore_arm < b₀.k := by
    rw [hkk]
    exact hexp
  obtain ⟨gfinal, hsum⟩ := run_rounds_invariant rnd n 0 b₀ hg hexp'
  obtain ⟨f1, _, _, f4, f5⟩ := run_rounds_frame rnd n 0 b₀
  refine ⟨⟨by rw [hmeans, hkk], by rw [hvars, hkk], by rw [hvl, hkk],
      by rw [hcl, hkk], hsum0⟩,
    ⟨by rw [f4, hmeans, hkk], by rw [f5, hvars, hkk], ?_, ?_,
      by rw [hsum, hsum0]; omega⟩,
    fun c r => bandit_round_counter c r⟩
  · rw [gfinal.2.1, f1]
  · rw [gfinal.2.2, f1]

/-- Witness for C3: the engine `__init__(2, 0, 1, 0.0, [5,-5], [1,1])`
after 3 rounds of the exploit-only stream. -/
theorem claim3_witness :
    mk_bandit 2 0 1 0 (some [5, -5]) (some [1, 1]) (fun _ => 0)
        = Except.ok exB0 ∧
    (0 : ℤ) < 2 ∧
    (∀ l, (some [5, -5] : Option (List ℚ)) = some l → l.length = (2 : ℤ).toNat) ∧
    (∀ l, (some [1, 1] : Option (List ℚ)) = some l → l.length = (2 : ℤ).toNat) ∧
    (∀ i, (exRnd i).explore_arm < (2 : ℤ).toNat) ∧
    ((exB0.reward_means.length = exB0.k ∧
        exB0.reward_variances.length = exB0.k ∧
        exB0.action_values.length = exB0.k ∧
        exB0.action_chosen_counter.length = exB0.k ∧
        exB0.action_chosen_counter.sum = 0) ∧
      ((run_rounds exRnd 0 3 exB0).reward_means.length = exB0.k ∧
        (run_rounds exRnd 0 3 exB0).reward_variances.length = exB0.k ∧
        (run_rounds exRnd 0 3 exB0).action_values.length = exB0.k ∧
        (run_rounds exRnd 0 3 exB0).action_chosen_counter.length = exB0.k ∧
        (run_rounds exRnd 0 3 exB0).action_chosen_counter.sum = 3) ∧
      (∀ (c : Bandit) (r : RoundRand), (bandit_round c r).action_chosen_counter
          = c.action_chosen_counter.set (round_choice c r)
              (c.action_chosen_counter.getD (round_choice c r) 0 + 1))) :=
  ⟨rfl, by decide,
    fun l hl => by injection hl with h; subst h; decide,
    fun l hl => by injection hl with h; subst h; decide,
    fun i => by show (0 : ℕ) < 2; decide,
    claim3_lengths_counters_invariant 2 0 1 0 (some [5, -5]) (some [1, 1])
      (fun _ => 0) exB0 rfl (by decide)
      (fun l hl => by injection hl with h; subst h; decide)
      (fun l hl => by injection hl with h; subst h; decide)
      exRnd (fun i => by show (0 : ℕ) < 2; decide) 3⟩

/-- C2: on a freshly constructed engine, after any interleaving of direct
`update_action_values` calls in which arm `a` (a valid index) receives at
least one reward, `action_values[a]` equals exactly the arithmetic mean of
the rewards delivered for arm `a` — whatever `initial_reward` was and
whatever rewards other arms received. -/
theorem claim2_action_values_exact_mean
    (k : ℤ) (eps : ℚ) (iters : ℤ) (init : ℚ)
    (ms vs : Option (List ℚ)) (rng : ℕ → ℚ) (b₀ : Bandit)
    (hmk : mk_bandit k eps iters init ms vs rng = Except.ok b₀)
    (a : ℕ) (ha : (a : ℤ) < k) (us : List (ℕ × ℚ))
    (hne : us.filter (fun p => p.1 == a) ≠ []) :
    (apply_updates b₀ us).action_values.getD a 0
      = ((us.filter (fun p => p.1 == a)).map Prod.snd).sum
        / ((us.filter (fun p => p.1 == a)).length : ℚ) := by
  obtain ⟨hk0, hb⟩ := mk_bandit_elim k eps iters init ms vs rng b₀ hmk
  have haN : a < k.toNat := by omega
  have h1 : a < b₀.action_chosen_counter.length := by
    rw [hb]
    simpa using haN
  have h2 : a < b₀.action_values.length := by
    rw [hb]
    simpa using haN
  obtain ⟨_, hv⟩ := apply_updates_mean_aux us b₀ a h1 h2
  have hc0 : b₀.action_chosen_counter.getD a 0 = 0 := by
    rw [hb]
    show (List.replicate k.toNat 0).getD a 0 = 0
    exact getD_replicate _ _ _ _ haN
  rw [hc0] at hv
  have hlenpos : 0 < (us.filter (fun p => p.1 == a)).length :=
    List.length_pos.mpr hne
  have hne0 : ((us.filter (fun p => p.1 == a)).length : ℚ) ≠ 0 :=
    ne_of_gt (by exact_mod_cast hlenpos)
  rw [eq_div_iff hne0]
  simpa using hv

/-- Witness for C2: arms 0 and 0 get rewards 3 and 5 with an interleaved
update of arm 1; the resulting estimate for arm 0 is `(3 + 5) / 2 = 4`. -/
theorem claim2_witness :
    mk_bandit 2 0 1 0 (some [5, -5]) (some [1, 1]) (fun _ => 0)
        = Except.ok exB0 ∧
    ((0 : ℕ) : ℤ) < 2 ∧
    ([((0 : ℕ), (3 : ℚ)), (1, 100), (0, 5)].filter (fun p => p.1 == 0) ≠ []) ∧
    (apply_updates exB0 [((0 : ℕ), (3 : ℚ)), (1, 100), (0, 5)]).action_values.getD 0 0
      = ((([((0 : ℕ), (3 : ℚ)), (1, 100), (0, 5)].filter
            (fun p => p.1 == 0)).map Prod.snd).sum
        / (([((0 : ℕ), (3 : ℚ)), (1, 100), (0, 5)].filter
            (fun p => p.1 == 0)).length : ℚ)) :=
  ⟨rfl, by decide, by decide,
    claim2_action_values_exact_mean 2 0 1 0 (some [5, -5]) (some [1, 1])
      (fun _ => 0) exB0 rfl 0 (by decide)
      [((0 : ℕ), (3 : ℚ)), (1, 100), (0, 5)] (by decide)⟩

/-- C8: `run_bandit` does not reset anything.  The `(m+1)`-st call continues
with `iterationCount + 1` further rounds from the state the `m`-th call
left; starting from a fresh engine the counters sum to
`m * (iterationCount + 1)` after `m` calls; and each call returns the
`total_reward` accumulated over all calls so far, not over the last call
alone. -/
theorem claim8_repeated_runs_accumulate (b : Bandit) (rnds : ℕ → ℕ → RoundRand)
    (hg : GoodState b) (hexp : ∀ m i, (rnds m i).explore_arm < b.k)
    (h0 : b.action_chosen_counter.sum = 0) (m : ℕ) :
    run_bandit_calls rnds b (m + 1)
      = run_rounds (rnds m) 0 (b.iters + 1).toNat (run_bandit_calls rnds b m) ∧
    (run_bandit_calls rnds b m).action_chosen_counter.sum
      = m * (b.iters + 1).toNat ∧
    (run_bandit_calls rnds b (m + 1)).action_chosen_counter.sum
      = (m + 1) * (b.iters + 1).toNat ∧
    (run_bandit (run_bandit_calls rnds b m) (rnds m)).1
      = (run_bandit_calls rnds b (m + 1)).total_reward := by
  obtain ⟨hkm, him, hgm, hsm⟩ := run_bandit_calls_invariant rnds b hg hexp m
  obtain ⟨_, _, _, hsm1⟩ := run_bandit_calls_invariant rnds b hg hexp (m + 1)
  refine ⟨?_, by rw [hsm, h0, Nat.zero_add],
    by rw [hsm1, h0, Nat.zero_add], rfl⟩
  show run_rounds (rnds m) 0 ((run_bandit_calls rnds b m).iters + 1).toNat
      (run_bandit_calls rnds b m)
    = run_rounds (rnds m) 0 (b.iters + 1).toNat (run_bandit_calls rnds b m)
  rw [him]

/-- Witness for C8: fresh engine `exB0` (`iters = 1`), second call (`m = 1`):
counters sum to 2 then 4, i.e. `m * (1 + 1)`. -/
theorem claim8_witness :
    GoodState exB0 ∧
    (∀ m i, (exRnds m i).explore_arm < exB0.k) ∧
    exB0.action_chosen_counter.sum = 0 ∧
    (run_bandit_calls exRnds exB0 (1 + 1)
        = run_rounds (exRnds 1) 0 (exB0.iters + 1).toNat
            (run_bandit_calls exRnds exB0 1) ∧
      (run_bandit_calls exRnds exB0 1).action_chosen_counter.sum
        = 1 * (exB0.iters + 1).toNat ∧
      (run_bandit_calls exRnds exB0 (1 + 1)).action_chosen_counter.sum
        = (1 + 1) * (exB0.iters + 1).toNat ∧
      (run_bandit (run_bandit_calls exRnds exB0 1) (exRnds 1)).1
        = (run_bandit_calls exRnds exB0 (1 + 1)).total_reward) :=
  ⟨⟨by decide, rfl, rfl⟩, fun m i => by show (0 : ℕ) < 2; decide, rfl,
    claim8_repeated_runs_accumulate exB0 exRnds ⟨by decide, rfl, rfl⟩
      (fun m i => by show (0 : ℕ) < 2; decide) rfl 1⟩
